import Mathlib

/-!
Verification of the core of `anotherustyworld`, a Rust interpreter for the
Another World (1991) bytecode engine, against its natural-language
specification.  The definitions below are shallow embeddings of the Rust
source: `src/channel.rs`, `src/vm.rs`, `src/video.rs` and `src/bank.rs`.
Machine integers are modelled as `Nat` (unsigned) and `Int` (signed) with
explicit truncation where the Rust code wraps; Rust operations that can
panic (array indexing out of bounds, checked arithmetic overflow, slice
range errors) are modelled as `Option`, with `none` standing for the panic.
-/

namespace AnotherWorld

/-- Reinterpret an unsigned 16-bit value as a two's-complement `i16`
(the Rust cast `as i16` applied to a `u16`). -/
def toI16 (n : Nat) : Int :=
  if n < 32768 then (n : Int) else (n : Int) - 65536

/-- Reinterpret an unsigned 32-bit value as a two's-complement `i32`
(the Rust cast used when reading the big-endian size word in `bank.rs`). -/
def toI32 (n : Nat) : Int :=
  if n < 2147483648 then (n : Int) else (n : Int) - 4294967296

/-- Wrapping (two's-complement) reduction of an integer into the `i16` range;
this is the semantics of `i16::wrapping_add` and what the claim about ADD/SUB
expects of every addition. -/
def wrapI16 (v : Int) : Int :=
  (v + 32768) % 65536 - 32768

/-- Rust `+` on `i16` values (`vm.rs`, `op_add`): the sum is produced only when
it fits in `i16`; an overflowing `+` is an arithmetic overflow error (a panic
under the default debug profile), modelled as `none`. -/
def addI16 (a b : Int) : Option Int :=
  if -32768 ≤ a + b ∧ a + b ≤ 32767 then some (a + b) else none

/-- Rust `-` on `i16` values (`vm.rs`, `op_sub`), checked like `addI16`. -/
def subI16 (a b : Int) : Option Int :=
  if -32768 ≤ a - b ∧ a - b ≤ 32767 then some (a - b) else none

/-! ## channel.rs -/

/-- `ProcessCounter`: either a valid bytecode offset or the invalid sentinel. -/
inductive ProcessCounter
  | Valid (pc : Nat)
  | Invalid
deriving DecidableEq

/-- `impl From<u64> for ProcessCounter`: values at or above 0xFFFE are the
"no program" sentinel. -/
def ProcessCounter.fromU64 (value : Nat) : ProcessCounter :=
  if 0xFFFE ≤ value then ProcessCounter.Invalid else ProcessCounter.Valid value

/-- Channel scheduling state (`channel.rs`, `enum State`). -/
inductive State
  | Ready
  | Running
  | Paused
  | Dead
deriving DecidableEq

/-- One of the 64 cooperative channels (`channel.rs`, `struct Channel`). -/
structure Channel where
  state : State
  pc : ProcessCounter
  next_pc : Option ProcessCounter
deriving DecidableEq

/-- `Channel::default`: dead with an invalid pc and no staged pc. -/
def Channel.default : Channel :=
  { state := State.Dead, pc := ProcessCounter.Invalid, next_pc := none }

/-- `Channel::set_pc`: stores the pc and derives the state from its validity. -/
def Channel.set_pc (c : Channel) (pc : ProcessCounter) : Channel :=
  { c with
    pc := pc
    state :=
      match pc with
      | ProcessCounter.Valid _ => State.Ready
      | ProcessCounter.Invalid => State.Dead }

/-- `Channel::apply_next_pc`: commit the staged pc, if any, and clear the slot. -/
def Channel.apply_next_pc (c : Channel) : Channel :=
  match c.next_pc with
  | some next_pc => { c.set_pc next_pc with next_pc := none }
  | none => c

/-- `Channel::yield_control`: commit the current execution pc back into the
channel (this is what the PAUSE_THREAD handler calls). -/
def Channel.yield_control (c : Channel) (execution_pc : ProcessCounter) : Channel :=
  c.set_pc execution_pc

/-! ## vm.rs: state and the channel/arithmetic opcode handlers

Opcode handlers in the source first read their operands from the bytecode
cursor and then act on the VM state; except for COND_JMP (whose claim is
about the operand fetch itself, see `Vm.op_cond_jmp` below) the handlers are
modelled as functions of the already-read operands.  A `u8` operand is a
`Nat` below 256 and a `u16` operand a `Nat` below 65536. -/

/-- VM state (`vm.rs`, `struct Vm`): 256 signed 16-bit variables, 64 channels,
the running channel id, and the per-dispatch call stack. -/
structure Vm where
  vars : List Int
  channels : List Channel
  running_channel_id : Nat
  stack : List Nat

/-- `Vm::check_channel_requests`: the frame-boundary commit step applies every
staged pc. -/
def Vm.check_channel_requests (vm : Vm) : Vm :=
  { vm with channels := vm.channels.map Channel.apply_next_pc }

/-- `Vm::op_yield_channel`, the handler of opcode 6 (PAUSE_THREAD).
`position` is the current position of the bytecode cursor; the handler
converts it through `ProcessCounter::from` and commits it via
`Channel::yield_control`.  The scheduler guarantees `running_channel_id < 64`,
so the channel indexing cannot fail here. -/
def Vm.op_yield_channel (vm : Vm) (position : Nat) : Vm :=
  let current_channel_id := vm.running_channel_id
  { vm with
    channels :=
      vm.channels.set current_channel_id
        ((vm.channels.getD current_channel_id Channel.default).yield_control
          (ProcessCounter.fromU64 position)) }

/-- `Vm::op_kill_channel`, the handler of opcode 17 (KILL_THREAD). -/
def Vm.op_kill_channel (vm : Vm) : Vm :=
  let current_channel := vm.running_channel_id
  { vm with
    channels :=
      vm.channels.set current_channel
        ((vm.channels.getD current_channel Channel.default).set_pc
          ProcessCounter.Invalid) }

/-- `Vm::op_set_next_pc`, the handler of opcode 8 (SET_VEC).  `channel_id` is
read as a full `u8` from the bytecode and then used to index the 64-element
channel array unchecked: the indexing panics (`none`) when it is 64 or more. -/
def Vm.op_set_next_pc (vm : Vm) (channel_id : Nat) (offset : Nat) : Option Vm :=
  if h : channel_id < vm.channels.length then
    some
      { vm with
        channels :=
          vm.channels.set channel_id
            { vm.channels[channel_id] with
              next_pc := some (ProcessCounter.fromU64 offset) } }
  else
    none

/-- The per-channel operation selected by the third operand of RESET_THREADS
(`vm.rs`, `op_reset_threads`). -/
def resetOperation (operation_id : Nat) (channel : Channel) : Channel :=
  if operation_id = 0 then { channel with state := State.Ready }
  else if operation_id = 1 then { channel with state := State.Paused }
  else { channel with next_pc := some ProcessCounter.Invalid }

/-- `Vm::op_reset_threads`, the handler of opcode 12 (RESET_THREADS).  The
slice `self.channels[fromId..=toId]` panics (`none`) when the inclusive range
is invalid for the 64-element array, i.e. when `toId` is 64 or more or the
range is reversed beyond empty. -/
def Vm.op_reset_threads (vm : Vm) (fromId toId operation_id : Nat) : Option Vm :=
  if fromId ≤ toId + 1 ∧ toId < vm.channels.length then
    some
      { vm with
        channels :=
          vm.channels.mapIdx fun i channel =>
            if fromId ≤ i ∧ i ≤ toId then resetOperation operation_id channel
            else channel }
  else
    none

/-- `Vm::op_add` (opcode 2): both variable ids are `u8`, the 256-entry
variable array is therefore always safely indexed; the addition itself is
the plain (non-wrapping) Rust `+=`. -/
def Vm.op_add (vm : Vm) (dst src : Nat) : Option Vm :=
  match vm.vars.get? dst, vm.vars.get? src with
  | some a, some b =>
      match addI16 a b with
      | some v => some { vm with vars := vm.vars.set dst v }
      | none => none
  | _, _ => none

/-- `Vm::op_sub` (opcode 19), the plain (non-wrapping) Rust `-=`. -/
def Vm.op_sub (vm : Vm) (dst src : Nat) : Option Vm :=
  match vm.vars.get? dst, vm.vars.get? src with
  | some a, some b =>
      match subI16 a b with
      | some v => some { vm with vars := vm.vars.set dst v }
      | none => none
  | _, _ => none

/-- A sequence of SET_VEC executions targeting channel `channel_id` during one
frame, applied in program order. -/
def applySetVecs (vm : Vm) (channel_id : Nat) (offsets : List Nat) : Option Vm :=
  offsets.foldl
    (fun acc offset => acc.bind fun v => v.op_set_next_pc channel_id offset)
    (some vm)

/-! ## vm.rs: COND_JMP with its operand fetch

The bytecode segment lives in a seekable cursor (`Cursor<Vec<u8>>`); reading
past the end of the buffer is an unexpected-eof I/O error, modelled `none`. -/

/-- A seekable byte cursor (`std::io::Cursor<Vec<u8>>`). -/
structure ByteCursor where
  data : List Nat
  pos : Nat
deriving DecidableEq

/-- `read_u8`: one byte at the current position, advancing the cursor. -/
def ByteCursor.read_u8 (c : ByteCursor) : Option (Nat × ByteCursor) :=
  match c.data.get? c.pos with
  | some b => some (b, { c with pos := c.pos + 1 })
  | none => none

/-- `read_u16::<BigEndian>`: two bytes, big-endian. -/
def ByteCursor.read_u16_be (c : ByteCursor) : Option (Nat × ByteCursor) := do
  let (hi, c1) ← c.read_u8
  let (lo, c2) ← c1.read_u8
  pure (hi * 256 + lo, c2)

/-- `seek(SeekFrom::Start(offset))` on an in-memory cursor. -/
def ByteCursor.seek_to (c : ByteCursor) (offset : Nat) : ByteCursor :=
  { c with pos := offset }

/-- `Vm::op_jmp` (opcode 7): read the u16 target and seek to it. -/
def op_jmp (cursor : ByteCursor) : Option ByteCursor := do
  let (offset, c1) ← cursor.read_u16_be
  pure (c1.seek_to offset)

/-- The boolean relation selected by the low three bits of the COND_JMP
sub-opcode (`vm.rs`, `op_cond_jmp`, the `match comparison` expression). -/
def condRelation (comparison : Nat) (a b : Int) : Bool :=
  match comparison with
  | 0 => a == b
  | 1 => a != b
  | 2 => decide (b > a)
  | 3 => decide (b ≥ a)
  | 4 => decide (a > b)
  | 5 => decide (a ≥ b)
  | _ => false

/-- `Vm::op_cond_jmp` (opcode 10): reads the sub-opcode byte and the variable
id, fetches the comparison operand according to the high bits of the
sub-opcode, evaluates the relation selected by its low three bits against the
variable, and either seeks to the u16 target or skips over it. -/
def Vm.op_cond_jmp (vm : Vm) (cursor : ByteCursor) : Option ByteCursor := do
  let (opcode, c1) ← cursor.read_u8
  let (var, c2) ← c1.read_u8
  let (a, c3) ←
    if opcode &&& 0x80 ≠ 0 then do
      let (vi, c) ← c2.read_u8
      let av ← vm.vars.get? vi
      pure ((av, c) : Int × ByteCursor)
    else if opcode &&& 0x40 ≠ 0 then do
      let (imm, c) ← c2.read_u16_be
      pure (toI16 imm, c)
    else do
      let (imm, c) ← c2.read_u8
      pure ((imm : Int), c)
  let b ← vm.vars.get? var
  if condRelation (opcode &&& 7) a b then
    op_jmp c3
  else do
    let (_, c4) ← c3.read_u16_be
    pure c4

/-- Modelled from the claim: the width in bytes of the COND_JMP comparison
operand, chosen by the high bits of the sub-opcode (bit 0x80: one byte naming
a variable; else bit 0x40: a two-byte i16 immediate; else a one-byte
immediate). -/
def condOperandWidth (opcode : Nat) : Nat :=
  if opcode &&& 0x80 ≠ 0 then 1
  else if opcode &&& 0x40 ≠ 0 then 2
  else 1

/-- Modelled from the claim: the value of the COND_JMP comparison operand —
`vars[u8]` under bit 0x80, an i16 immediate under bit 0x40, and a u8
immediate otherwise — read from the bytes following the variable id. -/
def condOperand (vm : Vm) (data : List Nat) (pos : Nat) (opcode : Nat) : Int :=
  if opcode &&& 0x80 ≠ 0 then vm.vars.getD (data.getD (pos + 2) 0) 0
  else if opcode &&& 0x40 ≠ 0 then
    toI16 (data.getD (pos + 2) 0 * 256 + data.getD (pos + 3) 0)
  else (data.getD (pos + 2) 0 : Int)

/-- Modelled from the claim: the relation selected by the low three bits of
the sub-opcode, in the stated order; codes 6 and 7 select no relation. -/
def RelHolds (m : Nat) (a b : Int) : Prop :=
  (m = 0 ∧ a = b) ∨ (m = 1 ∧ a ≠ b) ∨ (m = 2 ∧ b > a) ∨ (m = 3 ∧ b ≥ a) ∨
    (m = 4 ∧ a > b) ∨ (m = 5 ∧ a ≥ b)

instance (m : Nat) (a b : Int) : Decidable (RelHolds m a b) :=
  inferInstanceAs
    (Decidable
      ((m = 0 ∧ a = b) ∨ (m = 1 ∧ a ≠ b) ∨ (m = 2 ∧ b > a) ∨ (m = 3 ∧ b ≥ a) ∨
        (m = 4 ∧ a > b) ∨ (m = 5 ∧ a ≥ b)))

/-! ## video.rs: page model -/

/-- `video.rs` constants: 320x200 at four bits per pixel. -/
def HEIGHT : Nat := 200

/-- Horizontal resolution. -/
def WIDTH : Nat := 320

/-- Bytes per page: `HEIGHT * WIDTH / 2`. -/
def VID_PAGE_SIZE : Nat := HEIGHT * WIDTH / 2

/-- `enum PageId`: a numbered page or one of the front/back aliases. -/
inductive PageId
  | Numbered (n : Nat)
  | Front
  | Back
deriving DecidableEq

/-- `PageId::from(raw_page_id: u8)`: 0xFE and 0xFF are the aliases, 0..3 map
to themselves, and every other raw value maps to page 0. -/
def PageId.fromRaw (raw_page_id : Nat) : PageId :=
  if raw_page_id = 0xFE then PageId.Front
  else if raw_page_id = 0xFF then PageId.Back
  else if raw_page_id ≤ 3 then PageId.Numbered raw_page_id
  else PageId.Numbered 0

/-- Video state (`video.rs`, `struct Video`): the current horizontal-line y,
four pages of `VID_PAGE_SIZE` bytes, and the work/front/back page indices.
The renderer and the deferred palette request play no role in the claims
below and are omitted. -/
structure Video where
  hline_y : Int
  pages : List (List Nat)
  work_buffer : Nat
  front_buffer : Nat
  back_buffer : Nat
deriving DecidableEq

/-- `Video::new`: four zeroed pages, work = front = 2, back = 1. -/
def Video.new : Video :=
  { hline_y := 0
    pages := List.replicate 4 (List.replicate VID_PAGE_SIZE 0)
    work_buffer := 2
    front_buffer := 2
    back_buffer := 1 }

/-- `Video::get_page`: resolve a `PageId` to a page index; a numbered id
above 3 panics (`none`) with "Unsupported PageId pattern". -/
def Video.get_page (v : Video) (page_id : PageId) : Option Nat :=
  match page_id with
  | PageId.Front => some v.front_buffer
  | PageId.Back => some v.back_buffer
  | PageId.Numbered n => if n ≤ 3 then some n else none

/-- Overwrite `repl.length` bytes of `l` starting at `offset` — the effect of
`copy_from_slice` into the subslice `l[offset..offset + repl.length]`. -/
def writeRange (l : List Nat) (offset : Nat) (repl : List Nat) : List Nat :=
  l.take offset ++ repl ++ l.drop (offset + repl.length)

/-- The scroll-marker test of `Video::copy_page`:
`matches!(src_page_id, PageId::Numbered(n) if n & 80 != 0)` — note the
decimal 80 in the source. -/
def scrollMarker (p : PageId) : Bool :=
  match p with
  | PageId.Numbered n => decide (n &&& 80 ≠ 0)
  | _ => false

/-- The masking of the source id in `Video::copy_page`:
`if let PageId::Numbered(n) = src_page_id { src_page_id = Numbered(n & src_mask) }`. -/
def maskPage (p : PageId) (mask : Nat) : PageId :=
  match p with
  | PageId.Numbered n => PageId.Numbered (n &&& mask)
  | p => p

/-- `Video::copy_page`: structural no-op guard, scroll-marker masking, page
resolution, the `split_at_mut` borrow split, and either the vertical-scroll
partial copy or the full-page copy.  `none` models the panics of the source:
`get_page` on an unsupported id, the `split_at_mut` indexing when both ids
resolve to the same page (the else branch indexes `l[raw_dst]` in a slice of
length `raw_src = raw_dst`), the `i16::abs` overflow on -32768, and
out-of-range subslices in `copy_from_slice`. -/
def Video.copy_page (v : Video) (src_page_id dst_page_id : PageId) (vscroll : Int) :
    Option Video :=
  if src_page_id = dst_page_id then some v
  else
    let is_vertical_scrolled := scrollMarker src_page_id
    let src_mask : Nat := if is_vertical_scrolled then 3 else 0xBF
    let masked_src := maskPage src_page_id src_mask
    do
      let raw_src ← v.get_page masked_src
      let raw_dst ← v.get_page dst_page_id
      if raw_src = raw_dst then none
      else
        let src_page := v.pages.getD raw_src []
        let dst_page := v.pages.getD raw_dst []
        if is_vertical_scrolled then
          if vscroll = -32768 then none
          else if vscroll.natAbs ≤ 199 then
            let data_to_copy := HEIGHT - vscroll.natAbs
            let src_offset := if vscroll < 0 then vscroll.natAbs else 0
            let dst_offset := if vscroll < 0 then 0 else vscroll.natAbs
            if src_offset + data_to_copy ≤ src_page.length ∧
                dst_offset + data_to_copy ≤ dst_page.length then
              some
                { v with
                  pages :=
                    v.pages.set raw_dst
                      (writeRange dst_page dst_offset
                        ((src_page.drop src_offset).take data_to_copy)) }
            else none
          else if dst_page.length = src_page.length then
            some { v with pages := v.pages.set raw_dst src_page }
          else none
        else if dst_page.length = src_page.length then
          some { v with pages := v.pages.set raw_dst src_page }
        else none

/-- `Video::fill_page`: every byte of the page becomes `(color << 4) | color`
(u8 shift, truncated to eight bits). -/
def Video.fill_page (v : Video) (page_id : PageId) (color : Nat) : Option Video := do
  let raw ← v.get_page page_id
  let byte_color := ((color <<< 4) % 256) ||| color
  pure
    { v with
      pages := v.pages.set raw (List.replicate (v.pages.getD raw []).length byte_color) }

/-! ## video.rs: point and line drawing

The polygon rasterizer works in `f64`; it is modelled below by exact
unnormalized fractions (`Frac`, a numerator/denominator pair of integers).
On every input evaluated in this file each `f64` operation is exact (small
integers, divisions with zero remainder and nonzero divisors), so the
fraction and the double-precision results coincide. -/

/-- An exact unnormalized fraction standing in for an `f64` value. -/
structure Frac where
  num : Int
  den : Int
deriving DecidableEq

/-- Embed an integer (`as f64` on an exact int). -/
def Frac.ofInt (z : Int) : Frac := ⟨z, 1⟩

/-- Exact `f64` addition. -/
def Frac.add (a b : Frac) : Frac :=
  ⟨a.num * b.den + b.num * a.den, a.den * b.den⟩

/-- Exact `f64` division. -/
def Frac.div (a b : Frac) : Frac :=
  ⟨a.num * b.den, a.den * b.num⟩

/-- Exact `f64` negation. -/
def Frac.neg (a : Frac) : Frac := ⟨-a.num, a.den⟩

/-- Comparison `a <= b` by cross multiplication (sign-corrected by the
product of the denominators; exact for nonzero denominators). -/
def Frac.le (a b : Frac) : Bool :=
  decide (0 ≤ (b.num * a.den - a.num * b.den) * (a.den * b.den))

/-- Mathematical floor of a fraction. -/
def Frac.floor (a : Frac) : Int :=
  if 0 ≤ a.den then Int.fdiv a.num a.den else Int.fdiv (-a.num) (-a.den)

/-- Rust `f64::round`: round half away from zero. -/
def roundAway (q : Frac) : Int :=
  if (Frac.ofInt 0).le q then (q.add ⟨1, 2⟩).floor else -((q.neg.add ⟨1, 2⟩).floor)

/-- Rust saturating float-to-int cast `as i16`. -/
def satI16 (z : Int) : Int :=
  max (-32768) (min z 32767)

/-- `Video::draw_point`: bounds check, nibble masks by the parity of x, the
three draw modes (solid, blend 0x10, copy-from-background 0x11) and the
single masked byte write at `y * 160 + x / 2`. -/
def Video.draw_point (v : Video) (x y : Int) (color : Nat) : Video :=
  if 0 ≤ x ∧ x ≤ 319 ∧ 0 ≤ y ∧ y ≤ 199 then
    let nx := x.toNat
    let ny := y.toNat
    let offset := ny * 160 + nx / 2
    let masks0 : Nat × Nat := if nx % 2 ≠ 0 then (0xF0, 0x0F) else (0x0F, 0xF0)
    let masks :=
      if color = 0x10 then
        let new_color_mask := masks0.2 &&& 0x88
        (255 - new_color_mask, new_color_mask)
      else masks0
    let byte_color :=
      if color = 0x10 then 0x88
      else if color = 0x11 then (v.pages.getD 0 []).getD offset 0
      else ((color <<< 4) % 256) ||| color
    let page := v.pages.getD v.work_buffer []
    let pixel_pair := page.getD offset 0
    { v with
      pages :=
        v.pages.set v.work_buffer
          (page.set offset ((pixel_pair &&& masks.1) ||| (byte_color &&& masks.2))) }
  else v

/-- Shared arithmetic of the three scanline writers: byte offset of the
leftmost byte and the byte width of the run.  Callers guarantee
`0 ≤ x_min ≤ x_max ≤ 319` and `0 ≤ hline_y ≤ 199`, so the offsets stay
inside the page. -/
def lineOffsets (hline_y x1 x2 : Int) : Nat × Nat :=
  let x_max := max x1 x2
  let x_min := min x1 x2
  ((hline_y * 160 + Int.tdiv x_min 2).toNat,
    (Int.tdiv x_max 2 - Int.tdiv x_min 2 + 1).toNat)

/-- The interior byte range written by every scanline writer:
`start = x_min & 1` and `end = max(0, width - 1 - ((x_max & 1) ^ 1))`,
inclusive. -/
def lineRun (x1 x2 : Int) (width : Nat) : List Nat :=
  let x_max := max x1 x2
  let x_min := min x1 x2
  let start := (x_min % 2).toNat
  let stop := (max 0 ((width : Int) - 1 - (if x_max % 2 = 0 then 1 else 0))).toNat
  List.range' start (stop + 1 - start)

/-- `Video::draw_line_normal`: solid fill — left nibble of the first byte,
right nibble of the last byte, full bytes in between. -/
def Video.draw_line_normal (v : Video) (x1 x2 : Int) (color : Nat) : Video :=
  let om := lineOffsets v.hline_y x1 x2
  let offset := om.1
  let width := om.2
  let page := v.pages.getD v.work_buffer []
  let byte_color := (((color &&& 0xF) <<< 4) ||| (color &&& 0xF))
  let page1 := page.set offset ((page.getD offset 0 &&& 0xF0) ||| (byte_color &&& 0x0F))
  let page2 :=
    page1.set (offset + width - 1)
      ((page1.getD (offset + width - 1) 0 &&& 0x0F) ||| (byte_color &&& 0xF0))
  let page3 := (lineRun x1 x2 width).foldl (fun p i => p.set (offset + i) byte_color) page2
  { v with pages := v.pages.set v.work_buffer page3 }

/-- `Video::draw_line_from_bg`: like `draw_line_normal` but sampling page 0.
The source obtains page 0 as `left[0]` after `split_at_mut(work_buffer)`,
which panics (`none`) when the work buffer is page 0 itself. -/
def Video.draw_line_from_bg (v : Video) (x1 x2 : Int) : Option Video :=
  if v.work_buffer = 0 then none
  else
    let om := lineOffsets v.hline_y x1 x2
    let offset := om.1
    let width := om.2
    let bg_page := v.pages.getD 0 []
    let page := v.pages.getD v.work_buffer []
    let page1 :=
      page.set offset ((page.getD offset 0 &&& 0xF0) ||| (bg_page.getD offset 0 &&& 0x0F))
    let page2 :=
      page1.set (offset + width - 1)
        ((page1.getD (offset + width - 1) 0 &&& 0x0F) |||
          (bg_page.getD (offset + width - 1) 0 &&& 0xF0))
    let page3 :=
      (lineRun x1 x2 width).foldl (fun p i => p.set (offset + i) (bg_page.getD (offset + i) 0))
        page2
    some { v with pages := v.pages.set v.work_buffer page3 }

/-- `Video::draw_line_blend`: OR 0x08 into the first byte, 0x80 into the last
byte, 0x88 into the interior. -/
def Video.draw_line_blend (v : Video) (x1 x2 : Int) : Video :=
  let om := lineOffsets v.hline_y x1 x2
  let offset := om.1
  let width := om.2
  let page := v.pages.getD v.work_buffer []
  let page1 := page.set offset (page.getD offset 0 ||| 0x08)
  let page2 :=
    page1.set (offset + width - 1) (page1.getD (offset + width - 1) 0 ||| 0x80)
  let page3 :=
    (lineRun x1 x2 width).foldl (fun p i => p.set (offset + i) (p.getD (offset + i) 0 ||| 0x88))
      page2
  { v with pages := v.pages.set v.work_buffer page3 }

/-! ## video.rs: polygon fill -/

/-- A point (`shapes.rs`, `struct Point`, i16 coordinates). -/
structure Point where
  x : Int
  y : Int
deriving DecidableEq

/-- A parsed polygon record (`shapes.rs`, `struct Polygon`). -/
structure Polygon where
  bbw : Int
  bbh : Int
  points : List Point
deriving DecidableEq

/-- `Video::calc_step`: `dx / dy` in `f64`, modelled as an exact fraction.
(A zero `dy` yields the denominator-zero fraction where `f64` would yield an
infinity; every step consumed in this file has a nonzero `dy`.) -/
def calc_step (p1 p2 : Point) : Frac :=
  let dy := p2.y - p1.y
  let dx := p2.x - p1.x
  (Frac.ofInt dx).div (Frac.ofInt dy)

/-- The draw-mode dispatch of the scanline loop in `Video::fill_polygon`:
solid below 0x10, copy-from-background above 0x10, blend at 0x10. -/
def Video.draw_line (v : Video) (color : Nat) (x1 x2 : Int) : Option Video :=
  if color < 0x10 then some (v.draw_line_normal x1 x2 color)
  else if color > 0x10 then v.draw_line_from_bg x1 x2
  else some (v.draw_line_blend x1 x2)

/-- The inner `for _ in 0..h_diff` loop of `Video::fill_polygon`: draw the
clipped scanline when visible, advance the edges by their steps, advance
`hline_y`, and stop the whole fill (flag `true`) as soon as `hline_y`
exceeds 199. -/
def fillScanlines (color : Nat) (step_left step_right : Frac) :
    Nat → Video → Frac → Frac → Option (Video × Frac × Frac × Bool)
  | 0, v, x_left, x_right => some (v, x_left, x_right, false)
  | n + 1, v, x_left, x_right => do
    let v1 ←
      if 0 ≤ v.hline_y ∧ x_left.le (Frac.ofInt 319) = true ∧
          (Frac.ofInt 0).le x_right = true then
        let draw_left := max 0 (satI16 (roundAway x_left))
        let draw_right := min (satI16 (roundAway x_right)) 319
        v.draw_line color draw_left draw_right
      else some v
    let v2 := { v1 with hline_y := v1.hline_y + 1 }
    if v2.hline_y > 199 then some (v2, x_left.add step_left, x_right.add step_right, true)
    else
      fillScanlines color step_left step_right n v2 (x_left.add step_left)
        (x_right.add step_right)

/-- The outer `for i in 0..polygon.points.len() / 2` loop of
`Video::fill_polygon`: matched left/right edges walked from the ends of the
vertex list, each positive-height left edge rendered by `fillScanlines`;
the early return out of the scanline loop aborts the remaining edges. -/
def fillEdgeLoop (color : Nat) (points : List Point) (x1 : Int) :
    Nat → Nat → Video → Option Video
  | _, 0, v => some v
  | i, rem + 1, v =>
    let n := points.length
    let curr_left := points.getD (n - 1 - i) ⟨0, 0⟩
    let next_left := points.getD (n - 2 - i) ⟨0, 0⟩
    let curr_right := points.getD i ⟨0, 0⟩
    let next_right := points.getD (i + 1) ⟨0, 0⟩
    let step_left := calc_step curr_left next_left
    let step_right := calc_step curr_right next_right
    let h_diff := next_left.y - curr_left.y
    if 0 < h_diff then do
      let res ←
        fillScanlines color step_left step_right h_diff.toNat v
          ((Frac.ofInt curr_left.x).add (Frac.ofInt x1))
          ((Frac.ofInt curr_right.x).add (Frac.ofInt x1))
      match res with
      | (v1, _, _, true) => some v1
      | (v1, _, _, false) => fillEdgeLoop color points x1 (i + 1) rem v1
    else fillEdgeLoop color points x1 (i + 1) rem v

/-- `Video::fill_polygon`.  The degenerate test (bbw = 0, bbh = 1, exactly 4
points) draws the single point and then — there is no return statement in
the source — falls through into the general scan fill.  The clip rectangle
is formed with truncating i16 division, and the fill is aborted early when
`hline_y` passes the bottom of the screen. -/
def Video.fill_polygon (v : Video) (color : Nat) (pt : Point) (polygon : Polygon) :
    Option Video :=
  let v0 :=
    if polygon.bbw = 0 ∧ polygon.bbh = 1 ∧ polygon.points.length = 4 then
      v.draw_point pt.x pt.y color
    else v
  let x1 := pt.x - Int.tdiv polygon.bbw 2
  let x2 := pt.x + Int.tdiv polygon.bbw 2
  let y1 := pt.y - Int.tdiv polygon.bbh 2
  let y2 := pt.y + Int.tdiv polygon.bbh 2
  if x1 > 319 ∨ x2 < 0 ∨ y1 > 199 ∨ y2 < 0 then some v0
  else
    fillEdgeLoop color polygon.points x1 0 (polygon.points.length / 2)
      { v0 with hline_y := y1 }

/-! ## video.rs: background planar decode (`Video::copy_bg`) -/

/-- A mutable local byte buffer modelled as an index-to-value function; a
write shadows the previous contents at one index. -/
def bufWrite (f : Nat → Nat) (i v : Nat) : Nat → Nat :=
  fun k => if k = i then v else f k

/-- One iteration of the innermost `for bit in 0..8` loop of
`Video::copy_bg`: shift the accumulator, pull the top bit of plane
`bit & 3`, and shift that plane byte (u8 shifts, truncated to eight bits). -/
def bgAccStep (st : List Nat × Nat) (bit : Nat) : List Nat × Nat :=
  let planes := st.1
  let acc := st.2
  let idx := bit &&& 3
  let p := planes.getD idx 0
  let acc1 := ((acc <<< 1) % 256) ||| (if p &&& 0x80 ≠ 0 then 1 else 0)
  (planes.set idx ((p <<< 1) % 256), acc1)

/-- The `for byte in 0..4` loop of `Video::copy_bg` for one `(h, w)` group:
the four plane bytes are read from the slice at strides of
`HEIGHT * WIDTH / 8 = 8000` (plane 3 first), and four accumulator bytes are
written to `bg[h * 40 + w + byte]`. -/
def bgDecodeGroup (src : Nat → Nat) (base : Nat) (bg : Nat → Nat) : Nat → Nat :=
  let plane_offset := HEIGHT * WIDTH / 8
  let planes0 :=
    [src (base + plane_offset * 3), src (base + plane_offset * 2),
      src (base + plane_offset), src base]
  let final :=
    (List.range 4).foldl
      (fun (st : List Nat × (Nat → Nat)) byteIdx =>
        let inner := (List.range 8).foldl bgAccStep (st.1, 0)
        (inner.1, bufWrite st.2 (base + byteIdx) inner.2))
      (planes0, bg)
  final.2

/-- The full double loop of `Video::copy_bg` over rows and row bytes,
producing the final contents of the local `bg_page` buffer. -/
def copyBgLocal (bg0 : Nat → Nat) (src : Nat → Nat) : Nat → Nat :=
  (List.range HEIGHT).foldl
    (fun bg h =>
      (List.range (WIDTH / 8)).foldl
        (fun bg w => bgDecodeGroup src (h * (WIDTH / 8) + w) bg) bg)
    bg0

/-- `Video::copy_bg`.  In the source, `let mut bg_page = self.pages[0];`
copies the 32000-byte array by value (fixed-size Rust arrays are `Copy`);
every subsequent write targets that local copy, which is dropped when the
function returns, so the video state comes back unchanged.  The raw slice
`src_data` is modelled as its length plus an index-to-byte function; the
loops index it up to byte 31999, so a shorter slice panics (`none`). -/
def Video.copy_bg (v : Video) (srcLen : Nat) (src : Nat → Nat) : Option Video :=
  if 32000 ≤ srcLen then
    let _bg_page := copyBgLocal (fun k => (v.pages.getD 0 []).getD k 0) src
    some v
  else none

/-! ## bank.rs: the back-to-front bit-oriented decompressor

The `Unpacker` reads 32-bit big-endian words from the byte-reversed-words
view of the packed blob; bits are pulled from the checksum register with a
rotate-through-carry.  `input` below is the byte sequence that view yields,
consumed from the front.  `none` models a short read (unexpected eof), the
checked `u16` arithmetic of `decode_reference`, or fuel exhaustion of the
outer loop (the source loops without bound). -/

/-- Decompressor context (`bank.rs`, `struct UnpackContext`): running crc,
the checksum/bit register, and the signed remaining-size counter. -/
structure UnpackContext where
  crc : Nat
  chk : Nat
  datasize : Int
deriving DecidableEq

/-- Full decompressor state: the remaining input bytes, the context and the
output buffer in push order (reversed on return). -/
structure UnpackState where
  input : List Nat
  ctx : UnpackContext
  output : List Nat
deriving DecidableEq

/-- Read one 32-bit big-endian word (`read_u32::<BigEndian>` /
`read_i32::<BigEndian>`). -/
def readWord (s : UnpackState) : Option (Nat × UnpackState) :=
  match s.input with
  | b0 :: b1 :: b2 :: b3 :: rest =>
      some (((b0 * 256 + b1) * 256 + b2) * 256 + b3, { s with input := rest })
  | _ => none

/-- `Unpacker::rcr`: shift the checksum right, return its old low bit, and
feed the carry into the new top bit. -/
def UnpackState.rcr (s : UnpackState) (carry : Bool) : Nat × UnpackState :=
  let lsb := s.ctx.chk &&& 1
  let chk1 := s.ctx.chk >>> 1
  let chk2 := if carry then chk1 ||| 0x80000000 else chk1
  (lsb, { s with ctx := { s.ctx with chk := chk2 } })

/-- `Unpacker::get_next_bit`: rotate a bit out of the checksum; when the
checksum empties, pull the next word, fold it into the crc, and rotate with
the carry set. -/
def UnpackState.get_next_bit (s : UnpackState) : Option (Nat × UnpackState) :=
  let r := s.rcr false
  if r.2.ctx.chk = 0 then do
    let (w, s2) ← readWord r.2
    let s3 := { s2 with ctx := { s2.ctx with chk := w, crc := s2.ctx.crc ^^^ w } }
    pure (s3.rcr true)
  else some r

/-- Accumulator loop of `Unpacker::get_code`. -/
def UnpackState.get_code_aux : UnpackState → Nat → Nat → Option (Nat × UnpackState)
  | s, acc, 0 => some (acc, s)
  | s, acc, n + 1 => do
    let (bit, s1) ← s.get_next_bit
    s1.get_code_aux ((acc <<< 1) ||| bit) n

/-- `Unpacker::get_code`: pull `bit_length` bits, first bit most
significant. -/
def UnpackState.get_code (s : UnpackState) (bit_length : Nat) : Option (Nat × UnpackState) :=
  s.get_code_aux 0 bit_length

/-- The byte-push loop of `Unpacker::decode_literal`: each byte is an 8-bit
code (`as u8`). -/
def pushLiterals : UnpackState → Nat → Option UnpackState
  | s, 0 => some s
  | s, n + 1 => do
    let (data, s1) ← s.get_code 8
    pushLiterals { s1 with output := s1.output ++ [data % 256] } n

/-- `Unpacker::decode_literal`: read the length code, emit
`code + additional_length + 1` literal bytes, and charge them to the
remaining-size counter. -/
def UnpackState.decode_literal (s : UnpackState) (bit_length additional_length : Nat) :
    Option UnpackState := do
  let (code, s1) ← s.get_code bit_length
  let length := code + additional_length + 1
  let s2 ← pushLiterals s1 length
  pure { s2 with ctx := { s2.ctx with datasize := s2.ctx.datasize - length } }

/-- The byte read of `Unpacker::decode_reference`:
`output.get(idx).copied().unwrap_or(0)` — an index past the current buffer
produces a zero byte. -/
def refByte (output : List Nat) (idx : Nat) : Nat :=
  (output.get? idx).getD 0

/-- The copy loop of `Unpacker::decode_reference`: each step reads
`output[offset + i]` (zero when out of range) from the growing buffer and
pushes it.  The index sum `offset + i` is `u16` arithmetic: the checked
addition fails past 0xFFFF. -/
def pushReferences : UnpackState → Nat → Nat → Option UnpackState
  | s, _, 0 => some s
  | s, offset, n + 1 =>
    if offset < 65536 then
      pushReferences { s with output := s.output ++ [refByte s.output offset] } (offset + 1) n
    else none

/-- `Unpacker::decode_reference`: read the offset code, subtract it from the
truncated (`as u16`) output length — a checked `u16` subtraction — copy
`length` bytes, and charge them to the remaining-size counter. -/
def UnpackState.decode_reference (s : UnpackState) (bit_length : Nat) (length : Nat) :
    Option UnpackState := do
  let (code, s1) ← s.get_code bit_length
  let lenTrunc := s1.output.length % 65536
  if code ≤ lenTrunc then do
    let s2 ← pushReferences s1 (lenTrunc - code) length
    pure { s2 with ctx := { s2.ctx with datasize := s2.ctx.datasize - length } }
  else none

/-- One token of the stream: the `if` ladder in the body of
`Unpacker::unpack` — literal-short (N+1 bytes), ref-2, ref-3, ref-4,
literal-long (N+9 bytes) and ref-long (L+1 bytes). -/
def unpackStep (s : UnpackState) : Option UnpackState := do
  let (b1, s1) ← s.get_next_bit
  if b1 = 0 then do
    let (b2, s2) ← s1.get_next_bit
    if b2 = 0 then s2.decode_literal 3 0
    else s2.decode_reference 8 2
  else do
    let (code, s2) ← s1.get_code 2
    if code = 3 then s2.decode_literal 8 8
    else if code < 2 then s2.decode_reference (code + 9) (code + 3)
    else do
      let (len0, s3) ← s2.get_code 8
      s3.decode_reference 12 (len0 + 1)

/-- The main loop of `Unpacker::unpack`: consume tokens while the
remaining-size counter is positive, then reverse the accumulated buffer. -/
def unpackLoop : Nat → UnpackState → Option (List Nat × UnpackState)
  | 0, _ => none
  | fuel + 1, s =>
    if s.ctx.datasize ≤ 0 then some (s.output.reverse, s)
    else do
      let s1 ← unpackStep s
      unpackLoop fuel s1

/-- `Unpacker::unpack`: read the declared size, the crc and the initial
checksum (folding the checksum into the crc), then run the token loop. -/
def unpack (input : List Nat) (fuel : Nat) : Option (List Nat × UnpackState) := do
  let (ds, s1) ← readWord { input := input, ctx := ⟨0, 0, 0⟩, output := [] }
  let (crc0, s2) ← readWord s1
  let (chk0, s3) ← readWord s2
  unpackLoop fuel
    { s3 with ctx := { crc := crc0 ^^^ chk0, chk := chk0, datasize := toI32 ds } }

/-- The declared unpacked size of a packed blob: the first big-endian i32
word of the reversed-word stream. -/
def declaredSize (input : List Nat) : Int :=
  toI32
    (((input.getD 0 0 * 256 + input.getD 1 0) * 256 + input.getD 2 0) * 256 +
      input.getD 3 0)

/-! ## Concrete states used by the witnesses and counterexamples -/

/-- A VM with zeroed variables, 64 dead channels, channel 0 selected. -/
def vmZero : Vm :=
  { vars := List.replicate 256 0
    channels := List.replicate 64 Channel.default
    running_channel_id := 0
    stack := [] }

/-- A VM whose channel 0 is running at a valid pc. -/
def vmC1 : Vm :=
  { vmZero with
    channels :=
      (List.replicate 64 Channel.default).set 0
        { state := State.Running, pc := ProcessCounter.Valid 0, next_pc := none } }

/-- A VM with `vars[0] = 32767` and `vars[1] = 1` (ADD overflow input). -/
def vmC3 : Vm :=
  { vmZero with vars := ((List.replicate 256 0).set 0 32767).set 1 1 }

/-- A VM with `vars[0] = -32768` and `vars[1] = 1` (SUB overflow input). -/
def vmC3s : Vm :=
  { vmZero with vars := ((List.replicate 256 0).set 0 (-32768)).set 1 1 }

/-- A VM with `vars[0] = 3` and `vars[1] = 4` (in-range ADD/SUB input). -/
def vmC3w : Vm :=
  { vmZero with vars := ((List.replicate 256 0).set 0 3).set 1 4 }

/-- A VM with `vars[5] = 7` (the COND_JMP end-to-end scenario of the spec). -/
def vmC9 : Vm :=
  { vmZero with vars := (List.replicate 256 0).set 5 7 }

/-- COND_JMP bytecode: sub-opcode 0 (u8 immediate, relation ==), variable 5,
immediate 7, target 0x0010. -/
def dataC9 : List Nat := [0, 5, 7, 0, 16]

/-- A video state with four distinguishable pages (page 0 filled with 7). -/
def vC4 : Video :=
  { hline_y := 0
    pages :=
      [List.replicate 32000 7, List.replicate 32000 1, List.replicate 32000 2,
        List.replicate 32000 0]
    work_buffer := 2
    front_buffer := 2
    back_buffer := 1 }

/-- A degenerate polygon record (bbw 0, bbh 1, four points) whose left edge
has height one, so the scan fill after the missing return draws a line. -/
def polyC5 : Polygon :=
  { bbw := 0, bbh := 1, points := [⟨0, 0⟩, ⟨0, 1⟩, ⟨0, 1⟩, ⟨0, 0⟩] }

/-- A packed blob (reversed-word view): declared size 1, crc 0, initial
checksum 0x80000000; the 13 zero bits it yields decode one literal-short
token emitting a single zero byte. -/
def inputC8 : List Nat := [0, 0, 0, 1, 0, 0, 0, 0, 128, 0, 0, 0]

/-- The decompressor state after `unpack inputC8`: counter exactly zero. -/
def stateC8 : UnpackState :=
  { input := []
    ctx := { crc := 0x80000000, chk := 0x00040000, datasize := 0 }
    output := [0] }

/-- A decompressor state holding only a bit reservoir, for exercising
`decode_literal` directly. -/
def stateC8lit : UnpackState :=
  { input := [], ctx := { crc := 0, chk := 0x80000000, datasize := 0 }, output := [] }

/-- A decompressor state for exercising `decode_reference` directly. -/
def stateC8ref : UnpackState :=
  { input := [], ctx := { crc := 0, chk := 0x80000000, datasize := 0 }, output := [] }

/-- The state `decode_literal 3 0` reaches from `stateC8lit`: one zero byte
emitted, counter charged to -1, eleven bits consumed. -/
def stateC8lit1 : UnpackState :=
  { input := [], ctx := { crc := 0, chk := 0x00100000, datasize := -1 }, output := [0] }

/-- The state `decode_reference 8 2` reaches from `stateC8ref`: two zero
bytes emitted (both reads past the empty buffer), counter charged to -2. -/
def stateC8ref1 : UnpackState :=
  { input := [], ctx := { crc := 0, chk := 0x00800000, datasize := -2 }, output := [0, 0] }

/-! ## List helper lemmas -/

theorem list_getD_set_self {α : Type} (l : List α) (i : Nat) (a d : α)
    (h : i < l.length) : (l.set i a).getD i d = a := by
  induction l generalizing i with
  | nil => simp at h
  | cons x xs ih =>
    cases i with
    | zero => simp [List.set, List.getD]
    | succ j =>
      simp only [List.set, List.getD_cons_succ]
      exact ih j (by simpa using h)

theorem list_getD_map {α β : Type} (l : List α) (f : α → β) (i : Nat) (d : α) (e : β)
    (h : i < l.length) : (l.map f).getD i e = f (l.getD i d) := by
  induction l generalizing i with
  | nil => simp at h
  | cons x xs ih =>
    cases i with
    | zero => simp [List.getD]
    | succ j =>
      simp only [List.map, List.getD_cons_succ]
      exact ih j (by simpa using h)

theorem list_get?_eq_getD {α : Type} (l : List α) (i : Nat) (d : α)
    (h : i < l.length) : l.get? i = some (l.getD i d) := by
  induction l generalizing i with
  | nil => simp at h
  | cons x xs ih =>
    cases i with
    | zero => simp [List.getD]
    | succ j =>
      simp only [List.get?, List.getD_cons_succ]
      exact ih j (by simpa using h)

theorem list_getElem_eq_getD {α : Type} (l : List α) (i : Nat) (d : α)
    (h : i < l.length) : l[i] = l.getD i d := by
  induction l generalizing i with
  | nil => simp at h
  | cons x xs ih =>
    cases i with
    | zero => simp [List.getD]
    | succ j =>
      simp only [List.getElem_cons_succ, List.getD_cons_succ]
      exact ih j (by simpa using h)

theorem list_getD_lt_of_forall {α : Type} (l : List α) (P : α → Prop) (i : Nat) (d : α)
    (hall : ∀ x ∈ l, P x) (h : i < l.length) : P (l.getD i d) := by
  induction l generalizing i with
  | nil => simp at h
  | cons x xs ih =>
    cases i with
    | zero => simpa [List.getD] using hall x (List.mem_cons_self x xs)
    | succ j =>
      simp only [List.getD_cons_succ]
      exact ih j (fun y hy => hall y (by simp [hy])) (by simpa using h)

theorem list_getElemq_set_self {α : Type} (l : List α) (i : Nat) (a : α)
    (h : i < l.length) : (l.set i a)[i]? = some a := by
  induction l generalizing i with
  | nil => simp at h
  | cons x xs ih =>
    cases i with
    | zero => simp [List.set]
    | succ j =>
      simp only [List.set, List.getElem?_cons_succ]
      exact ih j (by simpa using h)

/-! ## C1: PAUSE_THREAD -/

/-- C1, counterexample.  With channel 0 running at a valid pc, executing the
PAUSE_THREAD handler at cursor position 5 leaves the channel in state Ready,
not Paused as the claim states: `yield_control` goes through `set_pc`, which
derives Ready from any valid pc. -/
theorem c1_counterexample :
    ((vmC1.op_yield_channel 5).channels.getD 0 Channel.default).state = State.Ready ∧
      ((vmC1.op_yield_channel 5).channels.getD 0 Channel.default).state ≠ State.Paused := by
  constructor
  · rfl
  · decide

/-- C1, amended.  Executing the PAUSE_THREAD handler (opcode 6) commits the
current bytecode cursor position as the running channel pc and sets the
channel state to Ready (not Paused) whenever that position is below the
0xFFFE sentinel; since Ready differs from Running, the per-channel opcode
loop stops. -/
theorem c1_pause_thread_sets_ready (vm : Vm) (position : Nat)
    (hid : vm.running_channel_id < vm.channels.length) (hpos : position < 0xFFFE) :
    ((vm.op_yield_channel position).channels.getD vm.running_channel_id
        Channel.default).state = State.Ready ∧
      ((vm.op_yield_channel position).channels.getD vm.running_channel_id
        Channel.default).pc = ProcessCounter.Valid position ∧
      ((vm.op_yield_channel position).channels.getD vm.running_channel_id
        Channel.default).state ≠ State.Running := by
  have hn : ¬(0xFFFE ≤ position) := by omega
  refine ⟨?_, ?_, ?_⟩ <;>
    simp [Vm.op_yield_channel, Channel.yield_control, Channel.set_pc,
      ProcessCounter.fromU64, hn, list_getElemq_set_self _ _ _ hid]

/-- C1, witness for the amended theorem at channel 0, position 5. -/
theorem c1_witness :
    0 < vmC1.channels.length ∧ 5 < 0xFFFE ∧
      ((vmC1.op_yield_channel 5).channels.getD 0 Channel.default).pc =
        ProcessCounter.Valid 5 := by
  refine ⟨by decide, by decide, ?_⟩
  exact (c1_pause_thread_sets_ready vmC1 5 (by decide) (by decide)).2.1

/-! ## C7: SET_VEC staging -/

theorem op_set_next_pc_eq (vm : Vm) (c o : Nat) (hc : c < vm.channels.length) :
    vm.op_set_next_pc c o =
      some
        { vm with
          channels :=
            vm.channels.set c
              { vm.channels.getD c Channel.default with
                next_pc := some (ProcessCounter.fromU64 o) } } := by
  unfold Vm.op_set_next_pc
  rw [dif_pos hc]
  rw [list_getElem_eq_getD vm.channels c Channel.default hc]

theorem applySetVecs_eq (c : Nat) (offsets : List Nat) :
    ∀ (vm : Vm) (last : Nat), c < vm.channels.length → offsets.getLast? = some last →
      applySetVecs vm c offsets =
        some
          { vm with
            channels :=
              vm.channels.set c
                { vm.channels.getD c Channel.default with
                  next_pc := some (ProcessCounter.fromU64 last) } } := by
  induction offsets with
  | nil => intro vm last hc h; simp at h
  | cons o os ih =>
    intro vm last hc hlast
    have hstep :
        applySetVecs vm c (o :: os) =
          applySetVecs
            { vm with
              channels :=
                vm.channels.set c
                  { vm.channels.getD c Channel.default with
                    next_pc := some (ProcessCounter.fromU64 o) } }
            c os := by
      simp [applySetVecs, List.foldl, op_set_next_pc_eq vm c o hc]
    cases os with
    | nil =>
      have : last = o := by simpa using hlast.symm
      subst this
      simpa [applySetVecs] using hstep
    | cons o2 os2 =>
      have hlast2 : (o2 :: os2).getLast? = some last := by
        simpa [List.getLast?_cons_cons] using hlast
      have hc2 :
          c <
            ({ vm with
              channels :=
                vm.channels.set c
                  { vm.channels.getD c Channel.default with
                    next_pc := some (ProcessCounter.fromU64 o) } } : Vm).channels.length := by
        simpa using hc
      rw [hstep, ih _ last hc2 hlast2]
      simp only [List.set_set]
      congr 2
      rw [list_getD_set_self _ _ _ _ hc]

/-- C7.  SET_VEC writes are deferred and last-writer-wins: any nonempty
sequence of SET_VEC(c, pc) executions within a frame leaves the pc and the
state of channel c untouched, and the frame-boundary commit
(`check_channel_requests`) then installs the last staged value — Valid with
state Ready below the 0xFFFE sentinel, Invalid with state Dead otherwise —
and clears the staging slot. -/
theorem c7_set_vec_deferred (vm : Vm) (c last : Nat) (offsets : List Nat)
    (hc : c < vm.channels.length) (hlast : offsets.getLast? = some last) :
    ∃ vm1,
      applySetVecs vm c offsets = some vm1 ∧
        (vm1.channels.getD c Channel.default).pc =
          (vm.channels.getD c Channel.default).pc ∧
        (vm1.channels.getD c Channel.default).state =
          (vm.channels.getD c Channel.default).state ∧
        ((vm1.check_channel_requests).channels.getD c Channel.default).pc =
          (if last < 0xFFFE then ProcessCounter.Valid last else ProcessCounter.Invalid) ∧
        ((vm1.check_channel_requests).channels.getD c Channel.default).state =
          (if last < 0xFFFE then State.Ready else State.Dead) ∧
        ((vm1.check_channel_requests).channels.getD c Channel.default).next_pc = none := by
  refine ⟨_, applySetVecs_eq c offsets vm last hc hlast, ?_, ?_, ?_, ?_, ?_⟩
  · rw [list_getD_set_self _ _ _ _ hc]
  · rw [list_getD_set_self _ _ _ _ hc]
  all_goals
    have hmap :
        ∀ d : Channel,
          ((vm.channels.set c
                { vm.channels.getD c Channel.default with
                  next_pc := some (ProcessCounter.fromU64 last) }).map
              Channel.apply_next_pc).getD c d =
            Channel.apply_next_pc
              { vm.channels.getD c Channel.default with
                next_pc := some (ProcessCounter.fromU64 last) } := by
      intro d
      rw [list_getD_map _ _ _ Channel.default _ (by simpa using hc)]
      rw [list_getD_set_self _ _ _ _ hc]
  · rw [Vm.check_channel_requests]
    show ((_ : List Channel).getD c Channel.default).pc = _
    rw [hmap]
    simp only [Channel.apply_next_pc, Channel.set_pc, ProcessCounter.fromU64]
    rcases Nat.lt_or_ge last 0xFFFE with h | h
    · rw [if_neg (by omega), if_pos h]
    · rw [if_pos h, if_neg (by omega)]
  · rw [Vm.check_channel_requests]
    show ((_ : List Channel).getD c Channel.default).state = _
    rw [hmap]
    simp only [Channel.apply_next_pc, Channel.set_pc, ProcessCounter.fromU64]
    rcases Nat.lt_or_ge last 0xFFFE with h | h
    · rw [if_neg (by omega), if_pos h]
    · rw [if_pos h, if_neg (by omega)]
  · rw [Vm.check_channel_requests]
    show ((_ : List Channel).getD c Channel.default).next_pc = _
    rw [hmap]
    simp [Channel.apply_next_pc, Channel.set_pc]

/-- C7, witness: the end-to-end scenario of the spec — SET_VEC 4, 0x00A0
staged on a fresh VM, committed at the frame boundary. -/
theorem c7_witness :
    4 < vmZero.channels.length ∧
      ∃ vm1,
        applySetVecs vmZero 4 [0xA0] = some vm1 ∧
          (vm1.channels.getD 4 Channel.default).pc =
            (vmZero.channels.getD 4 Channel.default).pc ∧
          (vm1.channels.getD 4 Channel.default).state =
            (vmZero.channels.getD 4 Channel.default).state ∧
          ((vm1.check_channel_requests).channels.getD 4 Channel.default).pc =
            (if 0xA0 < 0xFFFE then ProcessCounter.Valid 0xA0 else ProcessCounter.Invalid) ∧
          ((vm1.check_channel_requests).channels.getD 4 Channel.default).state =
            (if 0xA0 < 0xFFFE then State.Ready else State.Dead) ∧
          ((vm1.check_channel_requests).channels.getD 4 Channel.default).next_pc = none := by
  exact ⟨by decide, c7_set_vec_deferred vmZero 4 0xA0 [0xA0] (by decide) (by decide)⟩

/-! ## C10: unchecked channel indexing -/

theorem list_get?_isSome_of_lt {α : Type} (l : List α) (i : Nat) (d : α)
    (h : i < l.length) : (l.get? i).isSome := by
  rw [list_get?_eq_getD l i d h]
  rfl

/-- C10.  On a well-formed VM (64 channels, 256 variables) the SET_VEC
handler with channel operand 64 and the RESET_THREADS handler with range end
64 — both operands are full u8 values read from the bytecode — index the
64-element channel array out of bounds and panic (`none`) instead of
returning a VmError, while every u8 variable id safely indexes the 256-entry
variable array. -/
theorem c10_unchecked_channel_indexing (vm : Vm) (h64 : vm.channels.length = 64)
    (h256 : vm.vars.length = 256) :
    vm.op_set_next_pc 64 0xA0 = none ∧
      vm.op_reset_threads 0 64 2 = none ∧
      ∀ b : Nat, b ≤ 255 → (vm.vars.get? b).isSome := by
  refine ⟨?_, ?_, ?_⟩
  · unfold Vm.op_set_next_pc
    rw [dif_neg (by omega)]
  · unfold Vm.op_reset_threads
    rw [if_neg (by omega)]
  · intro b hb
    exact list_get?_isSome_of_lt vm.vars b 0 (by omega)

/-- C10, witness at the all-zero VM. -/
theorem c10_witness :
    vmZero.op_set_next_pc 64 0xA0 = none ∧
      vmZero.op_reset_threads 0 64 2 = none ∧
      (vmZero.vars.get? 255).isSome := by
  have h :=
    c10_unchecked_channel_indexing vmZero (by simp only [vmZero, List.length_replicate])
      (by simp only [vmZero, List.length_replicate])
  exact ⟨h.1, h.2.1, h.2.2 255 (by omega)⟩

/-! ## C3: ADD and SUB arithmetic -/

/-- C3, counterexample.  ADD at `vars[0] = 32767, vars[1] = 1` and SUB at
`vars[0] = -32768, vars[1] = 1` do not produce the wrapped results the claim
promises: the plain `+=` / `-=` overflow (a panic under the default debug
profile, modelled `none`), even though the wrapped values (-32768 and 32767)
exist. -/
theorem c3_counterexample :
    vmC3.op_add 0 1 = none ∧ wrapI16 (32767 + 1) = -32768 ∧
      vmC3s.op_sub 0 1 = none ∧ wrapI16 (-32768 - 1) = 32767 := by
  refine ⟨?_, by decide, ?_, by decide⟩ <;> rfl

/-- C3, amended.  ADD and SUB are total only on operand pairs whose exact sum
or difference fits in the i16 range, in which case the destination variable
receives that exact value; outside the range the operation is an arithmetic
overflow error, not a two's-complement wrap (only ADD_CONST wraps). -/
theorem c3_add_sub_checked (vm : Vm) (dst src : Nat) (a b : Int)
    (hd : vm.vars.get? dst = some a) (hs : vm.vars.get? src = some b) :
    vm.op_add dst src =
        (if -32768 ≤ a + b ∧ a + b ≤ 32767 then
          some { vm with vars := vm.vars.set dst (a + b) }
        else none) ∧
      vm.op_sub dst src =
        (if -32768 ≤ a - b ∧ a - b ≤ 32767 then
          some { vm with vars := vm.vars.set dst (a - b) }
        else none) := by
  constructor
  · unfold Vm.op_add addI16
    simp only [hd, hs]
    by_cases hP : -32768 ≤ a + b ∧ a + b ≤ 32767
    · rw [if_pos hP, if_pos hP]
    · rw [if_neg hP, if_neg hP]
  · unfold Vm.op_sub subI16
    simp only [hd, hs]
    by_cases hP : -32768 ≤ a - b ∧ a - b ≤ 32767
    · rw [if_pos hP, if_pos hP]
    · rw [if_neg hP, if_neg hP]

/-- C3, witness for the amended theorem at `vars[0] = 3, vars[1] = 4`. -/
theorem c3_witness :
    vmC3w.op_add 0 1 = some { vmC3w with vars := vmC3w.vars.set 0 7 } ∧
      vmC3w.op_sub 0 1 = some { vmC3w with vars := vmC3w.vars.set 0 (-1) } := by
  have h := c3_add_sub_checked vmC3w 0 1 3 4 rfl rfl
  have h1 := h.1
  have h2 := h.2
  rw [if_pos (by norm_num)] at h1
  rw [if_pos (by norm_num)] at h2
  exact ⟨by simpa using h1, by simpa using h2⟩

/-! ## C6: copy_page aliasing -/

/-- C6, counterexample.  On the initial video state the ids `Numbered 2` and
`Front` both resolve to page index 2, yet `copy_page` is not a no-op on
them: the structural equality guard does not fire, and the `split_at_mut`
index `l[raw_dst]` with `l.length = raw_src = raw_dst` is out of bounds — a
panic (`none`), not a normal return. -/
theorem c6_counterexample :
    Video.new.get_page (PageId.Numbered 2) = some 2 ∧
      Video.new.get_page PageId.Front = some 2 ∧
      Video.new.copy_page (PageId.Numbered 2) PageId.Front 0 = none := by
  refine ⟨rfl, rfl, rfl⟩

/-- C6, amended.  `copy_page` is a byte-for-byte no-op exactly when source
and destination are structurally equal page ids; two structurally distinct
ids (the source without the scroll marker) that resolve to the same page
index instead make the `split_at_mut` indexing panic. -/
theorem c6_copy_page_noop_iff_structural :
    (∀ (v : Video) (src dst : PageId) (vscroll : Int), src = dst →
        v.copy_page src dst vscroll = some v) ∧
      ∀ (v : Video) (src dst : PageId) (vscroll : Int) (r : Nat), src ≠ dst →
        scrollMarker src = false → v.get_page src = some r → v.get_page dst = some r →
        v.copy_page src dst vscroll = none := by
  constructor
  · intro v src dst vscroll h
    subst h
    unfold Video.copy_page
    rw [if_pos rfl]
  · intro v src dst vscroll r hne hm hs hd
    unfold Video.copy_page
    rw [if_neg hne]
    simp only [hm, Bool.false_eq_true, if_false]
    cases src with
    | Numbered n =>
      have hn : n ≤ 3 := by
        by_contra hgt
        simp [Video.get_page, if_neg hgt] at hs
      have hmask : maskPage (PageId.Numbered n) 0xBF = PageId.Numbered n := by
        interval_cases n <;> rfl
      simp only [hmask, hs, hd, Option.bind_some, Option.some_bind]
      simp
    | Front =>
      simp only [maskPage, hs, hd, Option.bind_some, Option.some_bind]
      simp
    | Back =>
      simp only [maskPage, hs, hd, Option.bind_some, Option.some_bind]
      simp

/-- C6, witness: a structurally equal pair is a no-op, and the aliased pair
Back / Numbered 1 (both index 1 initially) panics. -/
theorem c6_witness :
    Video.new.copy_page (PageId.Numbered 1) (PageId.Numbered 1) 0 = some Video.new ∧
      Video.new.copy_page PageId.Back (PageId.Numbered 1) 5 = none := by
  exact
    ⟨c6_copy_page_noop_iff_structural.1 Video.new (PageId.Numbered 1) (PageId.Numbered 1) 0
        rfl,
      c6_copy_page_noop_iff_structural.2 Video.new PageId.Back (PageId.Numbered 1) 5 1
        (by decide) rfl rfl rfl⟩

/-! ## C4: the scroll marker of copy_page -/

/-- C4, evaluation at the failing input.  A COPY_VIDEO_PAGE source operand
0x81 (scroll marker plus page 1) never scrolls: `PageId::from` collapses it
to page 0 before `copy_page` runs, the guard `n & 80` (decimal) would not
see the 0x80 bit anyway, and the whole 32000-byte page 0 is copied — probes
at bytes 5, 5000 and 31999 of the destination all take the source value 7,
where the claimed 190-byte scroll copy with vscroll 10 would have left bytes
5, 5000 and 31999 untouched (0). -/
theorem list_getD_replicate {α : Type} (n i : Nat) (a d : α) (h : i < n) :
    (List.replicate n a).getD i d = a := by
  induction n generalizing i with
  | zero => omega
  | succ m ih =>
    cases i with
    | zero => rfl
    | succ j =>
      simp only [List.replicate, List.getD_cons_succ]
      exact ih j (by omega)

theorem copy_page_full_copy (v : Video) (src dst : PageId) (rs rd : Nat) (vscroll : Int)
    (hne : src ≠ dst) (hm : scrollMarker src = false)
    (hs : v.get_page (maskPage src 0xBF) = some rs) (hd : v.get_page dst = some rd)
    (hrr : rs ≠ rd)
    (hlen : (v.pages.getD rd []).length = (v.pages.getD rs []).length) :
    v.copy_page src dst vscroll =
      some { v with pages := v.pages.set rd (v.pages.getD rs []) } := by
  unfold Video.copy_page
  rw [if_neg hne]
  simp only [hm, Bool.false_eq_true, if_false, hs, hd, Bind.bind, Option.bind]
  rw [if_neg hrr, if_pos hlen]

theorem c4_scroll_marker_unreachable :
    PageId.fromRaw 0x81 = PageId.Numbered 0 ∧
      scrollMarker (PageId.Numbered 0x81) = false ∧
      vC4.copy_page (PageId.fromRaw 0x81) (PageId.fromRaw 3) 10 =
        some { vC4 with pages := vC4.pages.set 3 (List.replicate 32000 7) } ∧
      ((vC4.pages.set 3 (List.replicate 32000 7)).getD 3 []).getD 5 0 = 7 ∧
      ((vC4.pages.set 3 (List.replicate 32000 7)).getD 3 []).getD 5000 0 = 7 ∧
      ((vC4.pages.set 3 (List.replicate 32000 7)).getD 3 []).getD 31999 0 = 7 := by
  have hpage : (vC4.pages.set 3 (List.replicate 32000 7)).getD 3 [] = List.replicate 32000 7 := by
    show ([List.replicate 32000 7, List.replicate 32000 1, List.replicate 32000 2,
        List.replicate 32000 0].set 3 (List.replicate 32000 7)).getD 3 [] = _
    rfl
  have hpage0 : vC4.pages.getD 0 [] = List.replicate 32000 7 := rfl
  refine ⟨rfl, rfl, ?_, ?_, ?_, ?_⟩
  · show vC4.copy_page (PageId.Numbered 0) (PageId.Numbered 3) 10 = _
    rw [copy_page_full_copy vC4 (PageId.Numbered 0) (PageId.Numbered 3) 0 3 10 (by decide)
        rfl rfl rfl (by decide)
        (by
          rw [show vC4.pages.getD 3 [] = List.replicate 32000 0 from rfl, hpage0]
          simp only [List.length_replicate]),
      hpage0]
  · rw [hpage]; exact list_getD_replicate _ _ _ _ (by omega)
  · rw [hpage]; exact list_getD_replicate _ _ _ _ (by omega)
  · rw [hpage]; exact list_getD_replicate _ _ _ _ (by omega)

/-! ## C5: the degenerate polygon record -/

/-- C5, evaluation at the failing input.  For the degenerate record `polyC5`
(bbw 0, bbh 1, four points) at on-screen reference (2, 3) with color 5, the
claim predicts exactly one nibble: byte 481 = y*160 + x/2 becomes 0x50 (high
nibble, x even) — which is what `draw_point` alone produces.  The source
`fill_polygon` lacks the return after the degenerate case and falls through
into the scan fill, which rewrites byte 481 completely: the final byte is
0x55, i.e. the low nibble changed too. -/
theorem c5_degenerate_fill_bug :
    ((Video.new.draw_point 2 3 5).pages.getD 2 []).getD 481 0 = 0x50 ∧
      (Video.new.fill_polygon 5 ⟨2, 3⟩ polyC5).map
          (fun v => (v.pages.getD 2 []).getD 481 0) = some 0x55 := by
  constructor
  · rfl
  · rfl

/-! ## C2: copy_bg never reaches page 0 -/

/-- C2, evaluation at the failing input.  Feeding `copy_bg` a 32000-byte
blob of 0xFF on the initial video state returns the state unchanged — the
decode writes a local by-value copy of page 0 that is dropped on return —
although the decoded buffer is nonzero: its byte 8002 (row 199, byte 39,
accumulator 3, the last write of the loop) is 0xFF while byte 8002 of the
real page 0 stays 0. -/
theorem c2_copy_bg_discards_decode :
    Video.new.copy_bg 32000 (fun _ => 0xFF) = some Video.new ∧
      copyBgLocal (fun _ => 0) (fun _ => 0xFF) 8002 = 0xFF ∧
      (Video.new.pages.getD 0 []).getD 8002 0 = 0 := by
  refine ⟨rfl, ?_, ?_⟩
  · set_option maxRecDepth 100000 in rfl
  · rw [show Video.new.pages.getD 0 [] = List.replicate VID_PAGE_SIZE 0 from rfl]
    exact list_getD_replicate _ _ _ _ (by norm_num [VID_PAGE_SIZE, HEIGHT, WIDTH])

/-! ## C8: the decompressor size accounting -/

theorem readWord_spec (s : UnpackState) (w : Nat) (s1 : UnpackState)
    (h : readWord s = some (w, s1)) : s1.ctx = s.ctx ∧ s1.output = s.output := by
  unfold readWord at h
  match hs : s.input with
  | b0 :: b1 :: b2 :: b3 :: rest =>
    rw [hs] at h
    injection h with h2
    injection h2 with ha hb
    subst hb
    exact ⟨rfl, rfl⟩
  | [] => rw [hs] at h; exact absurd h (by simp)
  | [b0] => rw [hs] at h; exact absurd h (by simp)
  | [b0, b1] => rw [hs] at h; exact absurd h (by simp)
  | [b0, b1, b2] => rw [hs] at h; exact absurd h (by simp)

theorem get_next_bit_pres (s : UnpackState) (b : Nat) (s1 : UnpackState)
    (h : s.get_next_bit = some (b, s1)) :
    s1.output = s.output ∧ s1.ctx.datasize = s.ctx.datasize := by
  unfold UnpackState.get_next_bit at h
  by_cases hc : (s.rcr false).2.ctx.chk = 0
  · rw [if_pos hc] at h
    cases hw : readWord (s.rcr false).2 with
    | none => rw [hw] at h; simp [Bind.bind, Option.bind] at h
    | some p =>
      obtain ⟨w, s2⟩ := p
      rw [hw] at h
      simp only [Bind.bind, Option.bind, pure, Option.some.injEq] at h
      have hs2 := readWord_spec _ _ _ hw
      have h1 :
          s1 =
            (({ s2 with
                ctx := { s2.ctx with chk := w, crc := s2.ctx.crc ^^^ w } } :
              UnpackState).rcr true).2 := by
        rw [h]
      rw [h1]
      simp [UnpackState.rcr, hs2.1, hs2.2]
  · rw [if_neg hc] at h
    injection h with h2
    have h1 : s1 = (s.rcr false).2 := by rw [h2]
    rw [h1]
    simp [UnpackState.rcr]

theorem get_code_aux_pres (n : Nat) :
    ∀ (s : UnpackState) (acc code : Nat) (s1 : UnpackState),
      s.get_code_aux acc n = some (code, s1) →
      s1.output = s.output ∧ s1.ctx.datasize = s.ctx.datasize := by
  induction n with
  | zero =>
    intro s acc code s1 h
    unfold UnpackState.get_code_aux at h
    injection h with h2
    injection h2 with ha hb
    subst hb
    exact ⟨rfl, rfl⟩
  | succ m ih =>
    intro s acc code s1 h
    unfold UnpackState.get_code_aux at h
    cases hb : s.get_next_bit with
    | none => rw [hb] at h; simp [Bind.bind, Option.bind] at h
    | some p =>
      obtain ⟨bit, sb⟩ := p
      rw [hb] at h
      simp only [Bind.bind, Option.bind] at h
      have h1 := get_next_bit_pres _ _ _ hb
      have h2 := ih sb ((acc <<< 1) ||| bit) code s1 h
      exact ⟨h2.1.trans h1.1, h2.2.trans h1.2⟩

theorem get_code_pres (s : UnpackState) (bit_length code : Nat) (s1 : UnpackState)
    (h : s.get_code bit_length = some (code, s1)) :
    s1.output = s.output ∧ s1.ctx.datasize = s.ctx.datasize :=
  get_code_aux_pres bit_length s 0 code s1 h

theorem pushLiterals_spec (n : Nat) :
    ∀ (s s1 : UnpackState), pushLiterals s n = some s1 →
      s1.output.length = s.output.length + n ∧ s1.ctx.datasize = s.ctx.datasize := by
  induction n with
  | zero =>
    intro s s1 h
    unfold pushLiterals at h
    injection h with h2
    rw [← h2]
    exact ⟨rfl, rfl⟩
  | succ m ih =>
    intro s s1 h
    unfold pushLiterals at h
    cases hb : s.get_code 8 with
    | none => rw [hb] at h; simp [Bind.bind, Option.bind] at h
    | some p =>
      obtain ⟨data, sb⟩ := p
      rw [hb] at h
      simp only [Bind.bind, Option.bind] at h
      have h1 := get_code_pres _ _ _ _ hb
      have h2 := ih _ _ h
      constructor
      · rw [h2.1]
        simp [h1.1]
        omega
      · rw [h2.2]
        exact h1.2

theorem pushReferences_spec (n : Nat) :
    ∀ (s : UnpackState) (offset : Nat) (s1 : UnpackState),
      pushReferences s offset n = some s1 →
      s1.output.length = s.output.length + n ∧ s1.ctx = s.ctx := by
  induction n with
  | zero =>
    intro s offset s1 h
    unfold pushReferences at h
    injection h with h2
    rw [← h2]
    exact ⟨rfl, rfl⟩
  | succ m ih =>
    intro s offset s1 h
    unfold pushReferences at h
    by_cases ho : offset < 65536
    · rw [if_pos ho] at h
      have h2 := ih _ _ _ h
      constructor
      · rw [h2.1]
        simp
        omega
      · exact h2.2
    · rw [if_neg ho] at h
      exact absurd h (by simp)

theorem decode_literal_spec (s : UnpackState) (bl al : Nat) (s1 : UnpackState)
    (h : s.decode_literal bl al = some s1) :
    (s1.output.length : Int) - s.output.length = s.ctx.datasize - s1.ctx.datasize := by
  unfold UnpackState.decode_literal at h
  cases hb : s.get_code bl with
  | none => rw [hb] at h; simp [Bind.bind, Option.bind] at h
  | some p =>
    obtain ⟨code, sb⟩ := p
    rw [hb] at h
    simp only [Bind.bind, Option.bind] at h
    cases hp : pushLiterals sb (code + al + 1) with
    | none => rw [hp] at h; simp at h
    | some s2 =>
      rw [hp] at h
      simp only [pure, Option.some.injEq] at h
      have h1 := get_code_pres _ _ _ _ hb
      have h2 := pushLiterals_spec _ _ _ hp
      rw [← h]
      simp only []
      have hlen : s2.output.length = s.output.length + (code + al + 1) := by
        rw [h2.1, h1.1]
      have hds : s2.ctx.datasize = s.ctx.datasize := by rw [h2.2, h1.2]
      rw [hlen, hds]
      push_cast
      ring

theorem decode_reference_spec (s : UnpackState) (bl len : Nat) (s1 : UnpackState)
    (h : s.decode_reference bl len = some s1) :
    s1.output.length = s.output.length + len ∧
      s1.ctx.datasize = s.ctx.datasize - len := by
  unfold UnpackState.decode_reference at h
  cases hb : s.get_code bl with
  | none => rw [hb] at h; simp [Bind.bind, Option.bind] at h
  | some p =>
    obtain ⟨code, sb⟩ := p
    rw [hb] at h
    simp only [Bind.bind, Option.bind] at h
    by_cases hcode : code ≤ sb.output.length % 65536
    · rw [if_pos hcode] at h
      cases hp : pushReferences sb (sb.output.length % 65536 - code) len with
      | none => rw [hp] at h; simp [Bind.bind, Option.bind] at h
      | some s2 =>
        rw [hp] at h
        simp only [Bind.bind, Option.bind, pure, Option.some.injEq] at h
        have h1 := get_code_pres _ _ _ _ hb
        have h2 := pushReferences_spec _ _ _ _ hp
        rw [← h]
        constructor
        · show s2.output.length = s.output.length + len
          rw [h2.1, h1.1]
        · show s2.ctx.datasize - len = s.ctx.datasize - len
          rw [h2.2, h1.2]
    · rw [if_neg hcode] at h
      exact absurd h (by simp)

theorem unpackStep_balance (s s1 : UnpackState) (h : unpackStep s = some s1) :
    (s1.output.length : Int) - s.output.length = s.ctx.datasize - s1.ctx.datasize := by
  unfold unpackStep at h
  cases hb1 : s.get_next_bit with
  | none => rw [hb1] at h; simp [Bind.bind, Option.bind] at h
  | some p1 =>
    obtain ⟨b1, sa⟩ := p1
    rw [hb1] at h
    simp only [Bind.bind, Option.bind] at h
    have ha := get_next_bit_pres _ _ _ hb1
    by_cases h1 : b1 = 0
    · rw [if_pos h1] at h
      cases hb2 : sa.get_next_bit with
      | none => rw [hb2] at h; simp [Bind.bind, Option.bind] at h
      | some p2 =>
        obtain ⟨b2, sb⟩ := p2
        rw [hb2] at h
        simp only [Bind.bind, Option.bind] at h
        have hb := get_next_bit_pres _ _ _ hb2
        by_cases h2 : b2 = 0
        · rw [if_pos h2] at h
          have := decode_literal_spec _ _ _ _ h
          rw [hb.1, ha.1, hb.2, ha.2] at this
          exact this
        · rw [if_neg h2] at h
          have := decode_reference_spec _ _ _ _ h
          rw [hb.1, ha.1, hb.2, ha.2] at this
          omega
    · rw [if_neg h1] at h
      cases hc : sa.get_code 2 with
      | none => rw [hc] at h; simp [Bind.bind, Option.bind] at h
      | some p2 =>
        obtain ⟨code, sb⟩ := p2
        rw [hc] at h
        simp only [Bind.bind, Option.bind] at h
        have hb := get_code_pres _ _ _ _ hc
        by_cases h3 : code = 3
        · rw [if_pos h3] at h
          have := decode_literal_spec _ _ _ _ h
          rw [hb.1, ha.1, hb.2, ha.2] at this
          exact this
        · rw [if_neg h3] at h
          by_cases h4 : code < 2
          · rw [if_pos h4] at h
            have := decode_reference_spec _ _ _ _ h
            rw [hb.1, ha.1, hb.2, ha.2] at this
            omega
          · rw [if_neg h4] at h
            cases hl : sb.get_code 8 with
            | none => rw [hl] at h; simp [Bind.bind, Option.bind] at h
            | some p3 =>
              obtain ⟨len0, sc⟩ := p3
              rw [hl] at h
              simp only [Bind.bind, Option.bind] at h
              have hcp := get_code_pres _ _ _ _ hl
              have := decode_reference_spec _ _ _ _ h
              rw [hcp.1, hb.1, ha.1, hcp.2, hb.2, ha.2] at this
              omega

theorem unpackLoop_spec (fuel : Nat) :
    ∀ (s : UnpackState) (out : List Nat) (s1 : UnpackState),
      unpackLoop fuel s = some (out, s1) →
      out = s1.output.reverse ∧
        (s1.output.length : Int) - s.output.length = s.ctx.datasize - s1.ctx.datasize := by
  induction fuel with
  | zero => intro s out s1 h; exact absurd h (by simp [unpackLoop])
  | succ m ih =>
    intro s out s1 h
    unfold unpackLoop at h
    by_cases hd : s.ctx.datasize ≤ 0
    · rw [if_pos hd] at h
      injection h with h2
      injection h2 with ha hb
      subst hb
      exact ⟨ha.symm, by omega⟩
    · rw [if_neg hd] at h
      cases hs : unpackStep s with
      | none => rw [hs] at h; simp [Bind.bind, Option.bind] at h
      | some s2 =>
        rw [hs] at h
        simp only [Bind.bind, Option.bind] at h
        have h1 := unpackStep_balance _ _ hs
        have h2 := ih _ _ _ h
        exact ⟨h2.1, by omega⟩

theorem readWord_val (s : UnpackState) (w : Nat) (s1 : UnpackState)
    (h : readWord s = some (w, s1)) :
    w =
      ((s.input.getD 0 0 * 256 + s.input.getD 1 0) * 256 + s.input.getD 2 0) * 256 +
        s.input.getD 3 0 := by
  unfold readWord at h
  match hs : s.input with
  | b0 :: b1 :: b2 :: b3 :: rest =>
    rw [hs] at h
    injection h with h2
    injection h2 with ha hb
    rw [← ha]
    rfl
  | [] => rw [hs] at h; exact absurd h (by simp)
  | [b0] => rw [hs] at h; exact absurd h (by simp)
  | [b0, b1] => rw [hs] at h; exact absurd h (by simp)
  | [b0, b1, b2] => rw [hs] at h; exact absurd h (by simp)

theorem unpack_length (input : List Nat) (fuel : Nat) (out : List Nat) (s1 : UnpackState)
    (h : unpack input fuel = some (out, s1)) (hz : s1.ctx.datasize = 0) :
    out = s1.output.reverse ∧ (out.length : Int) = declaredSize input := by
  unfold unpack at h
  cases hw1 : readWord { input := input, ctx := ⟨0, 0, 0⟩, output := [] } with
  | none => rw [hw1] at h; simp [Bind.bind, Option.bind] at h
  | some p1 =>
    obtain ⟨ds, sA⟩ := p1
    rw [hw1] at h
    simp only [Bind.bind, Option.bind] at h
    cases hw2 : readWord sA with
    | none => rw [hw2] at h; simp [Bind.bind, Option.bind] at h
    | some p2 =>
      obtain ⟨crc0, sB⟩ := p2
      rw [hw2] at h
      simp only [Bind.bind, Option.bind] at h
      cases hw3 : readWord sB with
      | none => rw [hw3] at h; simp [Bind.bind, Option.bind] at h
      | some p3 =>
        obtain ⟨chk0, sC⟩ := p3
        rw [hw3] at h
        simp only [Bind.bind, Option.bind] at h
        have hloop := unpackLoop_spec fuel _ _ _ h
        have houtC : sC.output = ([] : List Nat) := by
          rw [(readWord_spec _ _ _ hw3).2, (readWord_spec _ _ _ hw2).2,
            (readWord_spec _ _ _ hw1).2]
        refine ⟨hloop.1, ?_⟩
        have hbal := hloop.2
        have hval := readWord_val _ _ _ hw1
        have hds : declaredSize input = toI32 ds := by
          rw [hval]
          rfl
        rw [hloop.1, hds]
        simp only [List.length_reverse]
        simp only [houtC, List.length_nil, Nat.cast_zero, sub_zero, hz] at hbal
        omega

/-- C8.  For inputs whose token stream accounts exactly for the declared
remaining-size counter (the loop ends with the counter at zero), `unpack`
returns the accumulated buffer reversed, of length exactly the declared
size; each literal or reference token decrements the counter by exactly the
number of bytes it pushed, and a reference index at or past the current
buffer length produces a zero byte. -/
theorem c8_unpack_round_trip :
    (∀ (input : List Nat) (fuel : Nat) (out : List Nat) (s1 : UnpackState),
        unpack input fuel = some (out, s1) → s1.ctx.datasize = 0 →
        out = s1.output.reverse ∧ (out.length : Int) = declaredSize input) ∧
      (∀ (s : UnpackState) (bl al : Nat) (s1 : UnpackState),
        s.decode_literal bl al = some s1 →
        (s1.output.length : Int) - s.output.length = s.ctx.datasize - s1.ctx.datasize) ∧
      (∀ (s : UnpackState) (bl len : Nat) (s1 : UnpackState),
        s.decode_reference bl len = some s1 →
        s1.output.length = s.output.length + len ∧
          s1.ctx.datasize = s.ctx.datasize - len) ∧
      ∀ (output : List Nat) (idx : Nat), output.length ≤ idx → refByte output idx = 0 := by
  refine ⟨unpack_length, decode_literal_spec, decode_reference_spec, ?_⟩
  intro output idx hlen
  unfold refByte
  rw [List.get?_eq_none.mpr hlen]
  rfl

/-- C8, witness: the 12-byte blob `inputC8` declares size 1 and decodes one
literal-short token into the single byte 0; the two decode helpers applied
to concrete bit reservoirs; a reference read past an empty buffer. -/
theorem c8_witness :
    unpack inputC8 2 = some ([0], stateC8) ∧
      (([0] : List Nat).length : Int) = declaredSize inputC8 ∧
      (stateC8lit1.output.length : Int) - stateC8lit.output.length =
        stateC8lit.ctx.datasize - stateC8lit1.ctx.datasize ∧
      stateC8ref1.output.length = stateC8ref.output.length + 2 ∧
      stateC8ref1.ctx.datasize = stateC8ref.ctx.datasize - 2 ∧
      refByte [] 3 = 0 := by
  have h : unpack inputC8 2 = some ([0], stateC8) := by rfl
  have hlit : UnpackState.decode_literal stateC8lit 3 0 = some stateC8lit1 := by rfl
  have href : UnpackState.decode_reference stateC8ref 8 2 = some stateC8ref1 := by rfl
  exact
    ⟨h, (c8_unpack_round_trip.1 inputC8 2 [0] stateC8 h rfl).2,
      c8_unpack_round_trip.2.1 stateC8lit 3 0 stateC8lit1 hlit,
      (c8_unpack_round_trip.2.2.1 stateC8ref 8 2 stateC8ref1 href).1,
      (c8_unpack_round_trip.2.2.1 stateC8ref 8 2 stateC8ref1 href).2,
      c8_unpack_round_trip.2.2.2 [] 3 (by decide)⟩

/-! ## C9: COND_JMP -/

theorem read_u8_eq (data : List Nat) (i : Nat) (h : i < data.length) :
    ByteCursor.read_u8 ⟨data, i⟩ = some (data.getD i 0, ⟨data, i + 1⟩) := by
  unfold ByteCursor.read_u8
  rw [list_get?_eq_getD data i 0 h]

theorem read_u16_be_eq (data : List Nat) (i : Nat) (h : i + 1 < data.length) :
    ByteCursor.read_u16_be ⟨data, i⟩ =
      some (data.getD i 0 * 256 + data.getD (i + 1) 0, ⟨data, i + 2⟩) := by
  unfold ByteCursor.read_u16_be
  rw [read_u8_eq data i (by omega)]
  simp only [Bind.bind, Option.bind]
  rw [read_u8_eq data (i + 1) (by omega)]
  simp only [Bind.bind, Option.bind, pure]

theorem op_jmp_eq (data : List Nat) (i : Nat) (h : i + 1 < data.length) :
    op_jmp ⟨data, i⟩ = some ⟨data, data.getD i 0 * 256 + data.getD (i + 1) 0⟩ := by
  unfold op_jmp
  rw [read_u16_be_eq data i h]
  simp only [Bind.bind, Option.bind, pure]
  rfl

theorem condRelation_iff (m : Nat) (a b : Int) :
    condRelation m a b = true ↔ RelHolds m a b := by
  rcases m with _ | _ | _ | _ | _ | _ | n
  · have he : condRelation 0 a b = (a == b) := rfl
    rw [he]
    simp [RelHolds]
  · have he : condRelation 1 a b = (a != b) := rfl
    rw [he]
    simp [RelHolds]
  · have he : condRelation 2 a b = decide (b > a) := rfl
    rw [he]
    simp [RelHolds]
  · have he : condRelation 3 a b = decide (b ≥ a) := rfl
    rw [he]
    simp [RelHolds]
  · have he : condRelation 4 a b = decide (a > b) := rfl
    rw [he]
    simp [RelHolds]
  · have he : condRelation 5 a b = decide (a ≥ b) := rfl
    rw [he]
    simp [RelHolds]
  · have he : condRelation (n + 6) a b = false := rfl
    rw [he]
    simp [RelHolds]

/-- C9.  COND_JMP reads the comparison operand according to the high bits of
the sub-opcode (bit 0x80: the value of vars[u8]; else bit 0x40: an i16
immediate; else a u8 immediate), evaluates the relation chosen by the low
three bits — in the order ==, !=, b>a, b≥a, a>b, a≥b, with codes 6 and 7
holding never — against b = vars[var], and seeks to the trailing u16 target
exactly when the relation holds, skipping it otherwise. -/
theorem c9_cond_jmp (vm : Vm) (data : List Nat) (pos : Nat)
    (hbytes : ∀ x ∈ data, x < 256) (hlen : vm.vars.length = 256)
    (hspace : pos + 3 + condOperandWidth (data.getD pos 0) < data.length) :
    vm.op_cond_jmp ⟨data, pos⟩ =
      some
        ⟨data,
          if RelHolds (data.getD pos 0 &&& 7) (condOperand vm data pos (data.getD pos 0))
              (vm.vars.getD (data.getD (pos + 1) 0) 0) then
            data.getD (pos + 2 + condOperandWidth (data.getD pos 0)) 0 * 256 +
              data.getD (pos + 3 + condOperandWidth (data.getD pos 0)) 0
          else pos + 4 + condOperandWidth (data.getD pos 0)⟩ := by
  have hvar : data.getD (pos + 1) 0 < 256 :=
    list_getD_lt_of_forall data (fun x => x < 256) (pos + 1) 0 hbytes (by omega)
  unfold Vm.op_cond_jmp
  rw [read_u8_eq data pos (by omega)]
  simp only [Bind.bind, Option.bind]
  rw [read_u8_eq data (pos + 1) (by omega)]
  simp only [Bind.bind, Option.bind]
  by_cases h80 : data.getD pos 0 &&& 0x80 ≠ 0
  · have hw : condOperandWidth (data.getD pos 0) = 1 := by
      unfold condOperandWidth
      rw [if_pos h80]
    rw [hw] at hspace
    have hA : condOperand vm data pos (data.getD pos 0) =
        vm.vars.getD (data.getD (pos + 2) 0) 0 := by
      unfold condOperand
      rw [if_pos h80]
    have hvi : data.getD (pos + 2) 0 < 256 :=
      list_getD_lt_of_forall data (fun x => x < 256) (pos + 2) 0 hbytes (by omega)
    rw [if_pos h80]
    rw [read_u8_eq data (pos + 2) (by omega)]
    simp only [Bind.bind, Option.bind]
    rw [list_get?_eq_getD vm.vars (data.getD (pos + 2) 0) 0 (by omega)]
    simp only [Bind.bind, Option.bind, pure]
    rw [list_get?_eq_getD vm.vars (data.getD (pos + 1) 0) 0 (by omega)]
    simp only [Bind.bind, Option.bind]
    rw [hw, hA]
    by_cases hrel :
        RelHolds (data.getD pos 0 &&& 7) (vm.vars.getD (data.getD (pos + 2) 0) 0)
          (vm.vars.getD (data.getD (pos + 1) 0) 0)
    · rw [if_pos ((condRelation_iff _ _ _).mpr hrel), if_pos hrel]
      rw [op_jmp_eq data (pos + 3) (by omega)]
    · have hbf :
          ¬condRelation (data.getD pos 0 &&& 7) (vm.vars.getD (data.getD (pos + 2) 0) 0)
              (vm.vars.getD (data.getD (pos + 1) 0) 0) = true :=
        fun hcontra => hrel ((condRelation_iff _ _ _).mp hcontra)
      rw [if_neg hbf, if_neg hrel]
      rw [read_u16_be_eq data (pos + 3) (by omega)]
  · have h80f : ¬data.getD pos 0 &&& 0x80 ≠ 0 := h80
    rw [if_neg h80f]
    by_cases h40 : data.getD pos 0 &&& 0x40 ≠ 0
    · have hw : condOperandWidth (data.getD pos 0) = 2 := by
        unfold condOperandWidth
        rw [if_neg h80f, if_pos h40]
      rw [hw] at hspace
      have hA : condOperand vm data pos (data.getD pos 0) =
          toI16 (data.getD (pos + 2) 0 * 256 + data.getD (pos + 3) 0) := by
        unfold condOperand
        rw [if_neg h80f, if_pos h40]
      rw [if_pos h40]
      rw [read_u16_be_eq data (pos + 2) (by omega)]
      simp only [Bind.bind, Option.bind, pure]
      rw [list_get?_eq_getD vm.vars (data.getD (pos + 1) 0) 0 (by omega)]
      simp only [Bind.bind, Option.bind]
      rw [hw, hA]
      by_cases hrel :
          RelHolds (data.getD pos 0 &&& 7)
            (toI16 (data.getD (pos + 2) 0 * 256 + data.getD (pos + 3) 0))
            (vm.vars.getD (data.getD (pos + 1) 0) 0)
      · rw [if_pos ((condRelation_iff _ _ _).mpr hrel), if_pos hrel]
        rw [op_jmp_eq data (pos + 4) (by omega)]
      · have hbf :
            ¬condRelation (data.getD pos 0 &&& 7)
                (toI16 (data.getD (pos + 2) 0 * 256 + data.getD (pos + 3) 0))
                (vm.vars.getD (data.getD (pos + 1) 0) 0) = true :=
          fun hcontra => hrel ((condRelation_iff _ _ _).mp hcontra)
        rw [if_neg hbf, if_neg hrel]
        rw [read_u16_be_eq data (pos + 4) (by omega)]
    · have h40f : ¬data.getD pos 0 &&& 0x40 ≠ 0 := h40
      have hw : condOperandWidth (data.getD pos 0) = 1 := by
        unfold condOperandWidth
        rw [if_neg h80f, if_neg h40f]
      rw [hw] at hspace
      have hA : condOperand vm data pos (data.getD pos 0) =
          (data.getD (pos + 2) 0 : Int) := by
        unfold condOperand
        rw [if_neg h80f, if_neg h40f]
      rw [if_neg h40f]
      rw [read_u8_eq data (pos + 2) (by omega)]
      simp only [Bind.bind, Option.bind, pure]
      rw [list_get?_eq_getD vm.vars (data.getD (pos + 1) 0) 0 (by omega)]
      simp only [Bind.bind, Option.bind]
      rw [hw, hA]
      by_cases hrel :
          RelHolds (data.getD pos 0 &&& 7) ((data.getD (pos + 2) 0 : Nat) : Int)
            (vm.vars.getD (data.getD (pos + 1) 0) 0)
      · rw [if_pos ((condRelation_iff _ _ _).mpr hrel), if_pos hrel]
        rw [op_jmp_eq data (pos + 3) (by omega)]
      · have hbf :
            ¬condRelation (data.getD pos 0 &&& 7) ((data.getD (pos + 2) 0 : Nat) : Int)
                (vm.vars.getD (data.getD (pos + 1) 0) 0) = true :=
          fun hcontra => hrel ((condRelation_iff _ _ _).mp hcontra)
        rw [if_neg hbf, if_neg hrel]
        rw [read_u16_be_eq data (pos + 3) (by omega)]

/-- C9, witness: the end-to-end COND_JMP scenario of the spec — sub-opcode
0, variable 5 holding 7, u8 immediate 7, relation == holds, so the cursor
seeks to the target 0x0010. -/
theorem c9_witness : vmC9.op_cond_jmp ⟨dataC9, 0⟩ = some ⟨dataC9, 16⟩ := by
  have h :=
    c9_cond_jmp vmC9 dataC9 0 (by decide)
      (by simp only [vmC9, vmZero, List.length_set, List.length_replicate]) (by decide)
  rw [h]
  have hrel :
      RelHolds (dataC9.getD 0 0 &&& 7) (condOperand vmC9 dataC9 0 (dataC9.getD 0 0))
        (vmC9.vars.getD (dataC9.getD (0 + 1) 0) 0) := by
    show RelHolds 0 7 7
    exact Or.inl ⟨rfl, rfl⟩
  rw [if_pos hrel]
  rfl

end AnotherWorld
